import Mathlib

/-!
Verification of the rescheduling and business-day logic of the
Notion → Telegram notifier (src/index.js).

Embedding conventions:

* An ISO-8601 timestamp string is represented by the instant it denotes,
  measured in milliseconds since the Unix epoch (an `Int`), exactly the
  value of `new Date(isoStr).getTime()` in the source.  `Date.toISOString`
  and parsing are mutually inverse at millisecond precision, so date
  arithmetic done by the source on `getTime()` values is mirrored one-to-one
  on these integers.
* `Intl.DateTimeFormat('en-GB', { timeZone: 'Africa/Lagos', weekday: 'short' })`
  is modelled with the fixed offset UTC+01:00: the tz database gives
  Africa/Lagos the constant offset +01:00 with no daylight-saving rules for
  the whole era this system operates in.
* Integer division below is written with `/` and `%` on `Int`
  (Euclidean division/remainder).  Every divisor used is positive, and for a
  positive divisor Euclidean division coincides with floor division, which
  is the rounding JavaScript's epoch-day arithmetic performs.
-/

/-- Milliseconds in one day, the `24 * 60 * 60 * 1000` factor used by the
source's day arithmetic (src/index.js:24,34). -/
def msPerDay : Int := 86400000

/-- Milliseconds in one hour; the fixed UTC+01:00 offset of Africa/Lagos. -/
def msPerHour : Int := 3600000

/-- Short `en-GB` weekday names as produced by `Intl.DateTimeFormat` with
`weekday: 'short'`, indexed 0 = Sunday .. 6 = Saturday. -/
def weekdayShortName : Nat → String
  | 0 => "Sun"
  | 1 => "Mon"
  | 2 => "Tue"
  | 3 => "Wed"
  | 4 => "Thu"
  | 5 => "Fri"
  | _ => "Sat"

/-- The civil-calendar day index of an instant in Africa/Lagos (UTC+01:00):
number of whole days between the Lagos-local midnight containing the instant
and 1970-01-01. -/
def lagosDayNumber (ms : Int) : Int := (ms + msPerHour) / msPerDay

/-- Weekday index (0 = Sunday .. 6 = Saturday) of an instant evaluated in
Africa/Lagos.  Day 0 (1970-01-01) was a Thursday, index 4. -/
def lagosWeekdayIndex (ms : Int) : Nat := ((lagosDayNumber ms + 4) % 7).toNat

/-- `getLagosWeekdayShort` (src/index.js:16-19) and the identical inline
weekday computation of the loop (src/index.js:36-37): the short weekday name
of the instant in Africa/Lagos. -/
def getLagosWeekdayShort (ms : Int) : String :=
  weekdayShortName (lagosWeekdayIndex ms)

/-- `addDaysIso` (src/index.js:22-26):
`new Date(dt.getTime() + days * 24 * 60 * 60 * 1000).toISOString()`. -/
def addDaysIso (ms : Int) (days : Int) : Int := ms + days * msPerDay

/-- The probe loop of `nextBusinessDayIso` (src/index.js:33-41): for each
offset `i` in the given list, the candidate `dt.getTime() + i * 86400000` is
returned as soon as its Lagos weekday is neither `"Sat"` nor `"Sun"`; if the
list is exhausted the fallback `addDaysIso(isoStr, 1)` (src/index.js:43) is
returned. -/
def nextBusinessDayProbe (ms : Int) : List Nat → Int
  | [] => addDaysIso ms 1
  | i :: rest =>
    let candidate := ms + (i : Int) * msPerDay
    if getLagosWeekdayShort candidate ≠ "Sat" ∧ getLagosWeekdayShort candidate ≠ "Sun" then
      candidate
    else
      nextBusinessDayProbe ms rest

/-- `nextBusinessDayIso` (src/index.js:29-44): the loop `for (i = 1; i <= 7)`
probing offsets one through seven days. -/
def nextBusinessDayIso (ms : Int) : Int :=
  nextBusinessDayProbe ms [1, 2, 3, 4, 5, 6, 7]

/-- Day count from 1970-01-01 to the proleptic-Gregorian civil date y-m-d
(the calendar underlying ECMAScript `Date`).  Used to give names to the
concrete instants appearing in the spec's examples. -/
def daysFromCivil (y m d : Int) : Int :=
  let yAdj := if m ≤ 2 then y - 1 else y
  let era := yAdj / 400
  let yoe := yAdj - era * 400
  let mp := (m + 9) % 12
  let doy := (153 * mp + 2) / 5 + d - 1
  let doe := yoe * 365 + yoe / 4 - yoe / 100 + doy
  era * 146097 + doe - 719468

/-- Epoch milliseconds of the UTC civil datetime y-m-d h:mi:s, i.e. the
value of `new Date("y-m-dTh:mi:sZ").getTime()`. -/
def utcMs (y m d h mi s : Int) : Int :=
  ((daysFromCivil y m d * 24 + h) * 60 + mi) * 60000 + s * 1000

/-- Numeric value of a decimal digit character. -/
def digitVal (c : Char) : Nat := c.toNat - 48

/-- Parser for canonical `YYYY-MM-DDTHH:MM:SSZ` strings, returning the epoch
milliseconds of the denoted instant.  On such strings ECMAScript
`Date.parse` is fully specified (date-time string format, `Z` offset), and
this function computes exactly that value. -/
def parseIsoZMs (s : String) : Option Int :=
  match s.toList with
  | [y1, y2, y3, y4, q1, mo1, mo2, q2, d1, d2, tt, h1, h2, q3, mi1, mi2, q4, sc1, sc2, zz] =>
    if q1 = '-' ∧ q2 = '-' ∧ tt = 'T' ∧ q3 = ':' ∧ q4 = ':' ∧ zz = 'Z' ∧
       y1.isDigit ∧ y2.isDigit ∧ y3.isDigit ∧ y4.isDigit ∧
       mo1.isDigit ∧ mo2.isDigit ∧ d1.isDigit ∧ d2.isDigit ∧
       h1.isDigit ∧ h2.isDigit ∧ mi1.isDigit ∧ mi2.isDigit ∧
       sc1.isDigit ∧ sc2.isDigit then
      some (utcMs
        (1000 * digitVal y1 + 100 * digitVal y2 + 10 * digitVal y3 + digitVal y4)
        (10 * digitVal mo1 + digitVal mo2)
        (10 * digitVal d1 + digitVal d2)
        (10 * digitVal h1 + digitVal h2)
        (10 * digitVal mi1 + digitVal mi2)
        (10 * digitVal sc1 + digitVal sc2))
    else none
  | _ => none

/-- `new Date(s).getTime()` on the canonical ISO strings this development
instantiates; the default on unparsed strings is never relied upon. -/
def jsDateParse (s : String) : Int := (parseIsoZMs s).getD 0

/-! ## Record fields and the message formatter

A fetched page's consumed properties, after the optional-chaining lookups of
the source: `none` models an absent chain (`undefined`), `some s` a present
string field. -/

/-- The property values of one fetched page that the source reads
(src/index.js:70, 75, 87, 88, 143, 144). -/
structure Page where
  /-- `p.id` (src/index.js:152). -/
  pid : String
  /-- `props?.Repeat?.select?.name` (src/index.js:87). -/
  repeatName : Option String
  /-- `props?.['Notify Time']?.date?.start` (src/index.js:88,143), the raw
  ISO string of the scheduled time. -/
  notifyTimeStart : Option String
  /-- `props?.Name?.title?.[0]?.plain_text` (src/index.js:70). -/
  titleText : Option String
  /-- `props?.['Message template']?.rich_text?.[0]?.plain_text` (src/index.js:75). -/
  customText : Option String
  /-- `props?.Business?.select?.name` (src/index.js:144). -/
  businessName : Option String
deriving DecidableEq

/-- `getTitle` (src/index.js:69-72): `t || 'No title'` — JavaScript `||`
replaces both `undefined` and the empty string. -/
def getTitle (titleText : Option String) : String :=
  match titleText with
  | none => "No title"
  | some t => if t = "" then "No title" else t

/-- `getCustomMessage` (src/index.js:74-77): `txt || null`. -/
def getCustomMessage (customText : Option String) : Option String :=
  match customText with
  | none => none
  | some t => if t = "" then none else some t

/-- The `|| '—'` default applied to the displayed notify time and business
label (src/index.js:143-144). -/
def orDash (field : Option String) : String :=
  match field with
  | none => "—"
  | some s => if s = "" then "—" else s

/-- The default message template of the main loop (src/index.js:147). -/
def defaultMessage (title business notifyTime : String) : String :=
  "Reminder: <b>" ++ title ++ "</b>\nBusiness: " ++ business ++ "\nTime: " ++
    notifyTime ++ "\n\nThis is an automated reminder."

/-- The message construction of the main loop (src/index.js:140-147):
`custom || defaultTemplate`. -/
def buildMessage (p : Page) : String :=
  match getCustomMessage p.customText with
  | some c => c
  | none =>
    defaultMessage (getTitle p.titleText) (orDash p.businessName) (orDash p.notifyTimeStart)

/-! ## The rescheduler -/

/-- The partial page update sent by `scheduleNextOrDisable`
(src/index.js:92-97 and 111-117): each field is `some v` when the patch body
includes it and `none` when the patch leaves it unchanged.  `notifyTime`
holds the instant denoted by the written ISO string. -/
structure PatchBody where
  notify : Option Bool
  lastSent : Option Int
  notifyTime : Option Int
deriving DecidableEq

/-- The effective repeat policy: `props?.Repeat?.select?.name || 'None'`
(src/index.js:87). -/
def effectiveRepeat (repeatName : Option String) : String :=
  match repeatName with
  | none => "None"
  | some s => if s = "" then "None" else s

/-- `scheduleNextOrDisable` (src/index.js:86-126) as the patch body it sends:
if `!notifyTime || repeat === 'None'` the one-time branch unsets Notify and
stamps LastSent; otherwise the repeating branch stamps LastSent, advances
Notify Time to `nextBusinessDayIso(notifyTime)` and keeps Notify armed.
`dateParse` is the runtime's ISO-string parsing (`new Date(s).getTime()`),
passed explicitly. -/
def scheduleNextOrDisable (dateParse : String → Int) (now : Int)
    (repeatName notifyTimeStart : Option String) : PatchBody :=
  let rep := effectiveRepeat repeatName
  match notifyTimeStart with
  | none => { notify := some false, lastSent := some now, notifyTime := none }
  | some nt =>
    if nt = "" then
      { notify := some false, lastSent := some now, notifyTime := none }
    else if rep = "None" then
      { notify := some false, lastSent := some now, notifyTime := none }
    else
      { notify := some true, lastSent := some now,
        notifyTime := some (nextBusinessDayIso (dateParse nt)) }

/-! ## The run loop

The main IIFE (src/index.js:128-163).  External effects are modelled
explicitly: the fetch outcome is an `Except` input, and the success of each
page's Telegram send and Notion patch is injected through the two boolean
behaviours `sendOk` and `patchOk` (a `false` models the call throwing). -/

/-- Log lines emitted by the run (src/index.js:135, 151, 153, 156, 160). -/
inductive LogEvent where
  | noItems
  | sentOk (title : String)
  | scheduledOk (title : String)
  | sendUpdateError (title : String)
  | fatalError
deriving DecidableEq

/-- The observable outcome of one invocation: process exit code, the `now`
bound passed to the Notion query, the texts passed to `sendTelegram` in
order, the successful page patches, and the log. -/
structure RunResult where
  exitCode : Nat
  queryBound : Option Int
  sends : List String
  patches : List (String × PatchBody)
  logs : List LogEvent
deriving DecidableEq

/-- The per-page body of the `for (const p of pages)` loop
(src/index.js:139-158), returning the accumulated sends, successful patches
and logs.  The `try`/`catch` at src/index.js:149-157 is modelled by the
branch structure: a failed send skips the patch, a failed patch after a
successful send only logs, and in every branch the loop continues with the
remaining pages. -/
def processPages (dateParse : String → Int) (now : Int)
    (sendOk patchOk : Page → Bool) :
    List Page → List String × List (String × PatchBody) × List LogEvent
  | [] => ([], [], [])
  | p :: rest =>
    let message := buildMessage p
    let title := getTitle p.titleText
    let next := processPages dateParse now sendOk patchOk rest
    if sendOk p then
      if patchOk p then
        (message :: next.1,
         (p.pid, scheduleNextOrDisable dateParse now p.repeatName p.notifyTimeStart) :: next.2.1,
         LogEvent.sentOk title :: LogEvent.scheduledOk title :: next.2.2)
      else
        (message :: next.1, next.2.1,
         LogEvent.sentOk title :: LogEvent.sendUpdateError title :: next.2.2)
    else
      (message :: next.1, next.2.1, LogEvent.sendUpdateError title :: next.2.2)

/-- The main IIFE (src/index.js:128-163): `now` is read once
(src/index.js:131) and used both as the Notion query bound and for every
patch; a fetch failure hits the outer catch and exits 1; an empty fetch
result logs and returns; otherwise every page is processed in order. -/
def runMain (dateParse : String → Int) (now : Int)
    (fetch : Except Unit (List Page)) (sendOk patchOk : Page → Bool) : RunResult :=
  match fetch with
  | Except.error _ =>
    { exitCode := 1, queryBound := some now, sends := [], patches := [],
      logs := [LogEvent.fatalError] }
  | Except.ok [] =>
    { exitCode := 0, queryBound := some now, sends := [], patches := [],
      logs := [LogEvent.noItems] }
  | Except.ok (p :: rest) =>
    let out := processPages dateParse now sendOk patchOk (p :: rest)
    { exitCode := 0, queryBound := some now, sends := out.1, patches := out.2.1,
      logs := out.2.2 }

/-! ## Claim-worded formatter defaults

Definitions that follow the specification's words (not the source), used to
compare the spec's description of the default message against the code. -/

/-- The title default exactly as the spec states it: the literal placeholder
is substituted only when the field is absent; a present value is embedded
verbatim. -/
def specTitleClaimed (titleText : Option String) : String :=
  match titleText with
  | none => "No title"
  | some t => t

/-- The amended title default: the placeholder is substituted when the field
is absent or empty (the JavaScript falsy test of the source). -/
def specTitleAmended (titleText : Option String) : String :=
  match titleText with
  | none => "No title"
  | some t => if t = "" then "No title" else t

/-- The amended business-label default: the em-dash placeholder when the
field is absent or empty. -/
def specLabelAmended (businessName : Option String) : String :=
  match businessName with
  | none => "—"
  | some b => if b = "" then "—" else b

/-- The amended notify-time display default: the em-dash placeholder when
the field is absent or empty. -/
def specTimeAmended (notifyTimeStart : Option String) : String :=
  match notifyTimeStart with
  | none => "—"
  | some t => if t = "" then "—" else t

/-! ## Concrete instants and records used by witnesses and counterexamples -/

/-- The record of the spec's formatter example: empty custom-message field,
title `Pay rent`, business `Acme`, notify time `2024-01-01T08:00:00Z`. -/
def examplePage : Page :=
  { pid := "page-example", repeatName := none,
    notifyTimeStart := some "2024-01-01T08:00:00Z",
    titleText := some "Pay rent", customText := none,
    businessName := some "Acme" }

/-- A record whose title field is present but empty, with no custom
message. -/
def emptyTitlePage : Page :=
  { pid := "page-empty-title", repeatName := none,
    notifyTimeStart := some "2024-01-01T08:00:00Z",
    titleText := some "", customText := none,
    businessName := some "Acme" }

/-- A repeating (Daily) record due on Friday 2024-03-08 09:00 UTC. -/
def dailyPage : Page :=
  { pid := "page-daily", repeatName := some "Daily",
    notifyTimeStart := some "2024-03-08T09:00:00Z",
    titleText := some "Pay rent", customText := none,
    businessName := some "Acme" }

/-! ## Weekday arithmetic lemmas -/

theorem lagosWeekdayIndex_lt (ms : Int) : lagosWeekdayIndex ms < 7 := by
  unfold lagosWeekdayIndex
  omega

theorem lagosWeekdayIndex_add (ms : Int) (i : Nat) :
    lagosWeekdayIndex (ms + (i : Int) * msPerDay) = (lagosWeekdayIndex ms + i) % 7 := by
  unfold lagosWeekdayIndex lagosDayNumber msPerDay msPerHour
  omega

theorem getLagosWeekdayShort_add (ms : Int) (i : Nat) :
    getLagosWeekdayShort (ms + (i : Int) * msPerDay) =
      weekdayShortName ((lagosWeekdayIndex ms + i) % 7) := by
  unfold getLagosWeekdayShort
  rw [lagosWeekdayIndex_add]

theorem nextBusinessDay_spec (ms : Int) :
    ∃ k : Nat, 1 ≤ k ∧ k ≤ 3 ∧ nextBusinessDayIso ms = addDaysIso ms (k : Int) ∧
      getLagosWeekdayShort (addDaysIso ms (k : Int)) ≠ "Sat" ∧
      getLagosWeekdayShort (addDaysIso ms (k : Int)) ≠ "Sun" := by
  obtain ⟨r, hrlt, hr⟩ : ∃ r, r < 7 ∧ lagosWeekdayIndex ms = r :=
    ⟨_, lagosWeekdayIndex_lt ms, rfl⟩
  have key : ∀ i : Nat, getLagosWeekdayShort (ms + (i : Int) * msPerDay) =
      weekdayShortName ((r + i) % 7) := by
    intro i
    rw [getLagosWeekdayShort_add, hr]
  have keyAdd : ∀ i : Nat, getLagosWeekdayShort (addDaysIso ms (i : Int)) =
      weekdayShortName ((r + i) % 7) := by
    intro i
    rw [addDaysIso, key]
  interval_cases r <;>
    simp only [nextBusinessDayIso, nextBusinessDayProbe, key, keyAdd, addDaysIso] <;>
    first
      | exact ⟨1, by norm_num, by norm_num, by simp +decide, by decide, by decide⟩
      | exact ⟨2, by norm_num, by norm_num, by simp +decide, by decide, by decide⟩
      | exact ⟨3, by norm_num, by norm_num, by simp +decide, by decide, by decide⟩

/-- C1: for every timestamp, `nextBusinessDayIso` returns an instant whose
Africa/Lagos weekday is neither `"Sat"` nor `"Sun"`, and the result is one of
the seven probed candidates (in fact one of the first three), so the
`addDaysIso(t, 1)` fallback is never the returning path: had the loop been
exhausted, every probe — including offset one — would be a weekend day,
contradicting the non-weekend weekday of the result. -/
theorem nextBusinessDayIso_never_weekend (ms : Int) :
    getLagosWeekdayShort (nextBusinessDayIso ms) ≠ "Sat" ∧
    getLagosWeekdayShort (nextBusinessDayIso ms) ≠ "Sun" ∧
    ∃ k : Nat, 1 ≤ k ∧ k ≤ 7 ∧ nextBusinessDayIso ms = addDaysIso ms (k : Int) ∧
      getLagosWeekdayShort (addDaysIso ms (k : Int)) ≠ "Sat" ∧
      getLagosWeekdayShort (addDaysIso ms (k : Int)) ≠ "Sun" := by
  obtain ⟨k, hk1, hk3, heq, hSat, hSun⟩ := nextBusinessDay_spec ms
  exact ⟨heq ▸ hSat, heq ▸ hSun, k, hk1, by omega, heq, hSat, hSun⟩

/-- C3: `nextBusinessDayIso` changes its input by an exact whole (and
positive) number of days — `k * 86400` seconds — so the time-of-day
component of the instant is preserved and only the date moves. -/
theorem nextBusinessDayIso_preserves_clock_time (ms : Int) :
    ∃ k : Int, 1 ≤ k ∧ nextBusinessDayIso ms - ms = k * (86400 * 1000) := by
  obtain ⟨k, hk1, _, heq, _, _⟩ := nextBusinessDay_spec ms
  refine ⟨(k : Int), by exact_mod_cast hk1, ?_⟩
  rw [heq]
  unfold addDaysIso msPerDay
  ring

/-- C4: on the spec's concrete example, `nextBusinessDayIso` maps Friday
2024-03-08T09:00:00Z to Monday 2024-03-11T09:00:00Z, the intervening
Saturday and Sunday being skipped.  (ISO strings are identified with the
epoch-millisecond instants they denote; `parseIsoZMs` ties the concrete
strings to those instants.) -/
theorem nextBusinessDayIso_friday_example :
    parseIsoZMs "2024-03-08T09:00:00Z" = some (utcMs 2024 3 8 9 0 0) ∧
    getLagosWeekdayShort (utcMs 2024 3 8 9 0 0) = "Fri" ∧
    nextBusinessDayIso (utcMs 2024 3 8 9 0 0) = utcMs 2024 3 11 9 0 0 ∧
    parseIsoZMs "2024-03-11T09:00:00Z" = some (utcMs 2024 3 11 9 0 0) ∧
    getLagosWeekdayShort (utcMs 2024 3 11 9 0 0) = "Mon" ∧
    getLagosWeekdayShort (addDaysIso (utcMs 2024 3 8 9 0 0) 1) = "Sat" ∧
    getLagosWeekdayShort (addDaysIso (utcMs 2024 3 8 9 0 0) 2) = "Sun" := by
  decide

/-- C9: adding seven days of wall-clock offset to any instant leaves its
Africa/Lagos weekday name unchanged. -/
theorem addDaysIso_seven_preserves_weekday (ms : Int) :
    getLagosWeekdayShort (addDaysIso ms 7) = getLagosWeekdayShort ms := by
  unfold getLagosWeekdayShort addDaysIso lagosWeekdayIndex lagosDayNumber msPerDay msPerHour
  congr 1
  omega

/-- C5: whenever the effective repeat policy is `None` or the notify time is
absent, the rescheduler's update is exactly `{Notify: false, LastSent: now}`:
the flag is cleared, the stamp is written, and the Notify Time property is
not part of the patch, so the stored notify time is left unchanged and the
record cannot re-fire without an operator re-arming it. -/
theorem scheduleNextOrDisable_oneTime_disables (dateParse : String → Int) (now : Int)
    (repeatName notifyTimeStart : Option String)
    (h : effectiveRepeat repeatName = "None" ∨ notifyTimeStart = none) :
    scheduleNextOrDisable dateParse now repeatName notifyTimeStart =
      { notify := some false, lastSent := some now, notifyTime := none } := by
  rcases h with h | h
  · cases notifyTimeStart with
    | none => rfl
    | some nt =>
      by_cases hnt : nt = "" <;> simp [scheduleNextOrDisable, hnt, h]
  · subst h
    rfl

theorem scheduleNextOrDisable_oneTime_disables_witness :
    (effectiveRepeat (some "None") = "None" ∨
      (some "2024-01-01T08:00:00Z" : Option String) = none) ∧
    scheduleNextOrDisable jsDateParse (utcMs 2024 1 1 9 0 0) (some "None")
        (some "2024-01-01T08:00:00Z") =
      { notify := some false, lastSent := some (utcMs 2024 1 1 9 0 0), notifyTime := none } :=
  ⟨Or.inl (by decide),
   scheduleNextOrDisable_oneTime_disables jsDateParse (utcMs 2024 1 1 9 0 0)
     (some "None") (some "2024-01-01T08:00:00Z") (Or.inl (by decide))⟩

/-- C2 counterexample: a repeating record whose stored notify time is
2024-03-08T09:00:00Z is eligible for a run whose "now" is
2024-03-20T09:00:00Z (notify time ≤ now, so the query fetches it), yet the
rescheduler advances Notify Time only to 2024-03-11T09:00:00Z, which is not
strictly after that "now": the record is left with a past notify time and
the flag still armed, refuting the claim as stated. -/
theorem repeating_reschedule_stays_past_cex :
    effectiveRepeat (some "Daily") ≠ "None" ∧
    jsDateParse "2024-03-08T09:00:00Z" ≤ utcMs 2024 3 20 9 0 0 ∧
    (scheduleNextOrDisable jsDateParse (utcMs 2024 3 20 9 0 0) (some "Daily")
        (some "2024-03-08T09:00:00Z")).notifyTime = some (utcMs 2024 3 11 9 0 0) ∧
    utcMs 2024 3 11 9 0 0 ≤ utcMs 2024 3 20 9 0 0 := by
  decide

/-- C2 amended: for every repeating record (whatever its age), the
rescheduled notify time is strictly later than the stored one — it advances
by at least one whole day; and whenever the stored notify time is less than
one day in the past relative to the run's "now" — the normal situation when
the job runs at least daily — the new notify time is additionally strictly
after "now", so the record cannot be re-fetched by the same query bound.
The freshness proviso scopes only the second, after-"now" conclusion; the
advance past the previous notify time is unconditional. -/
theorem repeating_reschedule_advances (dateParse : String → Int) (now : Int)
    (repeatName : Option String) (nt : String)
    (hrep : effectiveRepeat repeatName ≠ "None") (hne : nt ≠ "") :
    ∃ u, (scheduleNextOrDisable dateParse now repeatName (some nt)).notifyTime = some u ∧
      dateParse nt < u ∧ (now < dateParse nt + msPerDay → now < u) := by
  have hu : (scheduleNextOrDisable dateParse now repeatName (some nt)).notifyTime =
      some (nextBusinessDayIso (dateParse nt)) := by
    simp [scheduleNextOrDisable, hne, hrep]
  obtain ⟨k, hk1, _, heq, _, _⟩ := nextBusinessDay_spec (dateParse nt)
  have hstep : nextBusinessDayIso (dateParse nt) = dateParse nt + (k : Int) * 86400000 := by
    rw [heq]
    unfold addDaysIso msPerDay
    ring
  refine ⟨nextBusinessDayIso (dateParse nt), hu, ?_, ?_⟩
  · rw [hstep]
    omega
  · intro hfresh
    rw [hstep]
    unfold msPerDay at hfresh
    omega

theorem repeating_reschedule_advances_witness :
    effectiveRepeat (some "Daily") ≠ "None" ∧
    "2024-03-08T09:00:00Z" ≠ "" ∧
    ∃ u, (scheduleNextOrDisable jsDateParse (utcMs 2024 3 8 10 0 0) (some "Daily")
        (some "2024-03-08T09:00:00Z")).notifyTime = some u ∧
      jsDateParse "2024-03-08T09:00:00Z" < u ∧
      (utcMs 2024 3 8 10 0 0 < jsDateParse "2024-03-08T09:00:00Z" + msPerDay →
        utcMs 2024 3 8 10 0 0 < u) :=
  ⟨by decide, by decide,
   repeating_reschedule_advances jsDateParse (utcMs 2024 3 8 10 0 0) (some "Daily")
     "2024-03-08T09:00:00Z" (by decide) (by decide)⟩

/-- C6 counterexample: a record with no custom message and a present but
empty title field.  The code's `t || 'No title'` substitutes the placeholder
(JavaScript `||` treats the empty string as falsy), while the claim promises
the placeholder only for an absent title, i.e. the present value embedded
verbatim — and the two messages differ. -/
theorem buildMessage_empty_title_cex :
    getCustomMessage emptyTitlePage.customText = none ∧
    emptyTitlePage.titleText ≠ none ∧
    specTitleClaimed emptyTitlePage.titleText = "" ∧
    buildMessage emptyTitlePage = defaultMessage "No title" "Acme" "2024-01-01T08:00:00Z" ∧
    buildMessage emptyTitlePage ≠
      defaultMessage (specTitleClaimed emptyTitlePage.titleText) "Acme"
        "2024-01-01T08:00:00Z" := by
  decide

/-- C6 amended: the formatted message equals the custom template field
verbatim when it is present and non-empty; otherwise it equals the default
template embedding the title, business label and displayed notify time,
where each of the three fields falls back to its literal placeholder when
absent **or empty** (the source's JavaScript falsy test), with the static
trailing note. -/
theorem buildMessage_formats (p : Page) :
    (∀ c, p.customText = some c → c ≠ "" → buildMessage p = c) ∧
    ((p.customText = none ∨ p.customText = some "") →
      buildMessage p =
        defaultMessage (specTitleAmended p.titleText) (specLabelAmended p.businessName)
          (specTimeAmended p.notifyTimeStart)) := by
  constructor
  · intro c hc hne
    simp [buildMessage, getCustomMessage, hc, hne]
  · intro h
    have hnone : getCustomMessage p.customText = none := by
      rcases h with h | h <;> simp [getCustomMessage, h]
    have ht : specTitleAmended p.titleText = getTitle p.titleText := by
      cases p.titleText <;> rfl
    have hb : specLabelAmended p.businessName = orDash p.businessName := by
      cases p.businessName <;> rfl
    have htm : specTimeAmended p.notifyTimeStart = orDash p.notifyTimeStart := by
      cases p.notifyTimeStart <;> rfl
    simp [buildMessage, hnone, ht, hb, htm]

theorem buildMessage_formats_witness :
    (examplePage.customText = none ∨ examplePage.customText = some "") ∧
    buildMessage examplePage =
      "Reminder: <b>Pay rent</b>\nBusiness: Acme\nTime: 2024-01-01T08:00:00Z\n\nThis is an automated reminder." := by
  refine ⟨Or.inl rfl, ?_⟩
  have h := (buildMessage_formats examplePage).2 (Or.inl rfl)
  rw [h]
  decide

/-! ## Run-loop lemmas -/

theorem scheduleNextOrDisable_lastSent (dateParse : String → Int) (now : Int)
    (repeatName notifyTimeStart : Option String) :
    (scheduleNextOrDisable dateParse now repeatName notifyTimeStart).lastSent = some now := by
  unfold scheduleNextOrDisable
  cases notifyTimeStart with
  | none => rfl
  | some nt =>
    by_cases h : nt = ""
    · simp [h]
    · simp only [h, if_false]
      split <;> rfl

theorem processPages_sends_eq (dp : String → Int) (now : Int) (sendOk patchOk : Page → Bool) :
    ∀ pages : List Page,
      (processPages dp now sendOk patchOk pages).1 = pages.map buildMessage := by
  intro pages
  induction pages with
  | nil => rfl
  | cons p rest ih =>
    cases hs : sendOk p <;> cases hp : patchOk p <;> simp [processPages, hs, hp, ih]

theorem processPages_patches_lastSent (dp : String → Int) (now : Int)
    (sendOk patchOk : Page → Bool) :
    ∀ pages : List Page, ∀ pr ∈ (processPages dp now sendOk patchOk pages).2.1,
      pr.2.lastSent = some now := by
  intro pages
  induction pages with
  | nil => intro pr hpr; cases hpr
  | cons p rest ih =>
    intro pr hpr
    cases hs : sendOk p <;> cases hp : patchOk p <;> simp [processPages, hs, hp] at hpr
    case false.false | false.true | true.false => exact ih pr hpr
    case true.true =>
      rcases hpr with hpr | hpr
      · rw [hpr]
        exact scheduleNextOrDisable_lastSent dp now p.repeatName p.notifyTimeStart
      · exact ih pr hpr

theorem processPages_patches_allOk (dp : String → Int) (now : Int) :
    ∀ pages : List Page,
      (processPages dp now (fun _ => true) (fun _ => true) pages).2.1 =
        pages.map (fun p => (p.pid, scheduleNextOrDisable dp now p.repeatName p.notifyTimeStart)) := by
  intro pages
  induction pages with
  | nil => rfl
  | cons p rest ih => simp [processPages, ih]

theorem processPages_error_logged (dp : String → Int) (now : Int)
    (sendOk patchOk : Page → Bool) :
    ∀ pages : List Page, ∀ p ∈ pages, (sendOk p = false ∨ patchOk p = false) →
      LogEvent.sendUpdateError (getTitle p.titleText) ∈
        (processPages dp now sendOk patchOk pages).2.2 := by
  intro pages
  induction pages with
  | nil => intro p hp; cases hp
  | cons q rest ih =>
    intro p hp hfail
    rcases List.mem_cons.mp hp with rfl | hp
    · cases hs : sendOk p <;> cases hpk : patchOk p <;> simp [processPages, hs, hpk]
      case true.true =>
        rcases hfail with h | h
        · exact absurd hs (by rw [h]; exact fun hc => Bool.noConfusion hc)
        · exact absurd hpk (by rw [h]; exact fun hc => Bool.noConfusion hc)
    · cases hs : sendOk q <;> cases hpk : patchOk q <;>
        simp [processPages, hs, hpk] <;>
        first
          | exact ih p hp hfail
          | exact Or.inr (ih p hp hfail)

/-- C7: a failure in one record's send or reschedule step (modelled by the
injected behaviours `sendOk`/`patchOk` being false at that record) is
caught: the run still exits 0, every fetched record — including all records
after the failing one — still has its message passed to the send call, and
the failure is logged; a failure of the initial fetch instead makes the
whole run exit 1. -/
theorem run_error_isolation (dp : String → Int) (now : Int) (sendOk patchOk : Page → Bool)
    (pages : List Page) (p : Page) (hp : p ∈ pages) :
    (runMain dp now (Except.error ()) sendOk patchOk).exitCode = 1 ∧
    (runMain dp now (Except.ok pages) sendOk patchOk).exitCode = 0 ∧
    buildMessage p ∈ (runMain dp now (Except.ok pages) sendOk patchOk).sends ∧
    ((sendOk p = false ∨ patchOk p = false) →
      LogEvent.sendUpdateError (getTitle p.titleText) ∈
        (runMain dp now (Except.ok pages) sendOk patchOk).logs) := by
  cases pages with
  | nil => cases hp
  | cons q rest =>
    refine ⟨rfl, rfl, ?_, ?_⟩
    · show buildMessage p ∈ (processPages dp now sendOk patchOk (q :: rest)).1
      rw [processPages_sends_eq]
      exact List.mem_map_of_mem buildMessage hp
    · intro hfail
      exact processPages_error_logged dp now sendOk patchOk (q :: rest) p hp hfail

theorem run_error_isolation_witness :
    dailyPage ∈ [examplePage, dailyPage] ∧
    ((runMain jsDateParse (utcMs 2024 3 8 10 0 0) (Except.error ())
        (fun q => q.pid != "page-example") (fun _ => true)).exitCode = 1 ∧
     (runMain jsDateParse (utcMs 2024 3 8 10 0 0) (Except.ok [examplePage, dailyPage])
        (fun q => q.pid != "page-example") (fun _ => true)).exitCode = 0 ∧
     buildMessage dailyPage ∈
       (runMain jsDateParse (utcMs 2024 3 8 10 0 0) (Except.ok [examplePage, dailyPage])
         (fun q => q.pid != "page-example") (fun _ => true)).sends ∧
     (((fun q : Page => q.pid != "page-example") dailyPage = false ∨
        (fun _ : Page => true) dailyPage = false) →
       LogEvent.sendUpdateError (getTitle dailyPage.titleText) ∈
         (runMain jsDateParse (utcMs 2024 3 8 10 0 0) (Except.ok [examplePage, dailyPage])
           (fun q => q.pid != "page-example") (fun _ => true)).logs)) :=
  ⟨by decide,
   run_error_isolation jsDateParse (utcMs 2024 3 8 10 0 0)
     (fun q => q.pid != "page-example") (fun _ => true) [examplePage, dailyPage]
     dailyPage (by decide)⟩

/-- C8: the single "now" of a run is both the bound handed to the Notion
query and the `LastSent` value of every patch the run writes: all records
updated in one invocation are stamped with the identical `lastSentTime`. -/
theorem run_single_now_stamp (dp : String → Int) (now : Int)
    (fetch : Except Unit (List Page)) (sendOk patchOk : Page → Bool) :
    (runMain dp now fetch sendOk patchOk).queryBound = some now ∧
    ∀ pr ∈ (runMain dp now fetch sendOk patchOk).patches,
      pr.2.lastSent = some now := by
  cases fetch with
  | error e =>
    refine ⟨rfl, ?_⟩
    intro pr hpr
    cases hpr
  | ok pages =>
    cases pages with
    | nil =>
      refine ⟨rfl, ?_⟩
      intro pr hpr
      cases hpr
    | cons q rest =>
      refine ⟨rfl, ?_⟩
      intro pr hpr
      exact processPages_patches_lastSent dp now sendOk patchOk (q :: rest) pr hpr

theorem run_single_now_stamp_witness :
    ((dailyPage.pid, scheduleNextOrDisable jsDateParse (utcMs 2024 3 8 10 0 0)
        dailyPage.repeatName dailyPage.notifyTimeStart) ∈
      (runMain jsDateParse (utcMs 2024 3 8 10 0 0) (Except.ok [dailyPage, examplePage])
        (fun _ => true) (fun _ => true)).patches) ∧
    (scheduleNextOrDisable jsDateParse (utcMs 2024 3 8 10 0 0)
        dailyPage.repeatName dailyPage.notifyTimeStart).lastSent =
      some (utcMs 2024 3 8 10 0 0) :=
  ⟨by decide,
   (run_single_now_stamp jsDateParse (utcMs 2024 3 8 10 0 0)
       (Except.ok [dailyPage, examplePage]) (fun _ => true) (fun _ => true)).2
     (dailyPage.pid, scheduleNextOrDisable jsDateParse (utcMs 2024 3 8 10 0 0)
       dailyPage.repeatName dailyPage.notifyTimeStart) (by decide)⟩

/-- C10: the implemented variant applies no weekday-restriction filter.  The
source consumes no `notifyDays`-like property at all (none appears among the
read fields of `Page`), every fetched record has its formatted message
passed to the send call whatever the per-record behaviours are, under
failure-free behaviours every record is also rescheduled, and the list of
attempted sends is completely independent of the run's "now" — so no
current-weekday computation (the dead `getLagosWeekdayShort` utility or
otherwise) gates the processing path. -/
theorem run_no_weekday_filter (dp : String → Int) (now now2 : Int) (pages : List Page)
    (sendOk patchOk : Page → Bool) :
    (runMain dp now (Except.ok pages) sendOk patchOk).sends = pages.map buildMessage ∧
    (runMain dp now (Except.ok pages) (fun _ => true) (fun _ => true)).patches =
      pages.map
        (fun p => (p.pid, scheduleNextOrDisable dp now p.repeatName p.notifyTimeStart)) ∧
    (runMain dp now (Except.ok pages) sendOk patchOk).sends =
      (runMain dp now2 (Except.ok pages) sendOk patchOk).sends := by
  have hsends : ∀ (n : Int) (sOk pOk : Page → Bool),
      (runMain dp n (Except.ok pages) sOk pOk).sends = pages.map buildMessage := by
    intro n sOk pOk
    cases pages with
    | nil => rfl
    | cons q rest =>
      show (processPages dp n sOk pOk (q :: rest)).1 = _
      exact processPages_sends_eq dp n sOk pOk (q :: rest)
  refine ⟨hsends now sendOk patchOk, ?_, (hsends now sendOk patchOk).trans
    (hsends now2 sendOk patchOk).symm⟩
  cases pages with
  | nil => rfl
  | cons q rest =>
    show (processPages dp now (fun _ => true) (fun _ => true) (q :: rest)).2.1 = _
    exact processPages_patches_allOk dp now (q :: rest)
